import Mathlib

/-!
Shallow embedding of the `AsyncCell` class of the async-cell repository
(final variant, with resolution priorities, subscriptions and the
pending-insertion guard of `orInsert`).

Modelling choices:
* The cell state is a structure mirroring the class fields: `inner`
  (`#inner?: T` as `Option T`), `pendingInsertion`, the fixed `priority`,
  the two resolver queues and the subscription list.
* Completion-handles (promise resolver functions) and subscriber callbacks
  are identified by `Nat` ids; resolving a handle or invoking a subscriber
  is recorded as an `Event` in the order the code performs the calls.
* A method that may throw is embedded as a function returning the state at
  the moment of the throw together with the events emitted so far and the
  thrown error (`none` when the method returns normally).  `insert` throws
  as its very first statement, so on error the state is the input state and
  no event has been emitted.
* `load`/`take` either complete immediately (returning `some v`) or
  register a fresh waiter id and suspend (returning `none`).
* `orInsert`'s producer is a function returning either an immediate value
  or an in-flight promise (identified by an id); the `.then` continuation
  that commits the promise result is `commitAsync`.
-/

namespace AsyncCell

inductive ResolvePriority where
  | takes
  | loads
deriving DecidableEq, Repr

inductive CellError where
  | pendingInsertionError
deriving DecidableEq, Repr

/-- Observable calls made by the cell: subscriber notifications and
resolutions of queued load/take completion-handles, in program order. -/
inductive Event (T : Type) where
  | notify (sub : Nat) (newValue prevValue : Option T)
  | resolveLoad (waiter : Nat) (value : T)
  | resolveTake (waiter : Nat) (value : T)
deriving DecidableEq, Repr

/-- The fields of the `AsyncCell` class. -/
structure Cell (T : Type) where
  inner : Option T
  pendingInsertion : Bool
  priority : ResolvePriority
  takes : List Nat
  loads : List Nat
  subscriptions : List Nat
deriving DecidableEq, Repr

/-- `new AsyncCell(value?, priority)`; the source defaults `priority` to
`ResolvePriority.Takes`, so the default construction is
`mkCell value ResolvePriority.takes`. -/
def mkCell (value : Option T) (priority : ResolvePriority) : Cell T :=
  { inner := value, pendingInsertion := false, priority := priority
    takes := [], loads := [], subscriptions := [] }

/-- `peek()`: returns the current inner value, no side effects. -/
def peek (c : Cell T) : Option T :=
  c.inner

/-- `load()`: completes at once with the inner value if present, otherwise
pushes a fresh resolver onto `resolvers.loads` and suspends (result
`none`). -/
def load (c : Cell T) (freshId : Nat) : Cell T × Option T :=
  match c.inner with
  | some v => (c, some v)
  | none => ({ c with loads := c.loads ++ [freshId] }, none)

/-- `take()`: if the inner value is present, clears the slot and completes
with the old value; otherwise pushes a fresh resolver onto
`resolvers.takes` and suspends (result `none`). -/
def take (c : Cell T) (freshId : Nat) : Cell T × Option T :=
  match c.inner with
  | some v => ({ c with inner := none }, some v)
  | none => ({ c with takes := c.takes ++ [freshId] }, none)

/-- `subscribe(...subscriptions)`: appends the callbacks. -/
def subscribe (c : Cell T) (subs : List Nat) : Cell T :=
  { c with subscriptions := c.subscriptions ++ subs }

/-- Result of a method that may throw: final state, events emitted before
returning or throwing, and the thrown error if any. -/
structure InsertResult (T : Type) where
  cell : Cell T
  events : List (Event T)
  error : Option CellError
deriving DecidableEq, Repr

/-- `insert(value?)`, line by line from the source:
throw `PendingInsertionError` if `pendingInsertion`; capture `prevValue`;
set `inner` to the argument and notify every subscriber with
`(value, prevValue)`; return if the slot is now empty; if the priority is
`Loads`, resolve all queued loads and clear that queue; shift one take
resolver and resolve it if present, otherwise (priority `Takes`) resolve
all queued loads and clear that queue. -/
def insert (c : Cell T) (value : Option T) : InsertResult T :=
  if c.pendingInsertion then
    ⟨c, [], some CellError.pendingInsertionError⟩
  else
    let prevValue := c.inner
    let notifications := c.subscriptions.map (fun s => Event.notify s value prevValue)
    match value with
    | none => ⟨{ c with inner := none }, notifications, none⟩
    | some v =>
      let c1 : Cell T := { c with inner := some v }
      let loadEventsFirst :=
        if c1.priority = ResolvePriority.loads then
          c1.loads.map (fun w => Event.resolveLoad w v)
        else []
      let c2 : Cell T :=
        if c1.priority = ResolvePriority.loads then { c1 with loads := [] } else c1
      match c2.takes with
      | t :: rest =>
        ⟨{ c2 with takes := rest },
          notifications ++ loadEventsFirst ++ [Event.resolveTake t v], none⟩
      | [] =>
        if c2.priority = ResolvePriority.takes then
          ⟨{ c2 with loads := [] },
            notifications ++ loadEventsFirst ++ c2.loads.map (fun w => Event.resolveLoad w v),
            none⟩
        else
          ⟨c2, notifications ++ loadEventsFirst, none⟩

/-- What `orInsert`'s producer returns: an immediate value or an in-flight
promise (identified by an id). -/
inductive ProducerResult (T : Type) where
  | immediate (v : T)
  | promise (pid : Nat)

/-- Result of `orInsert`: the insert-style outcome plus whether the
producer function was invoked. -/
structure OrInsertResult (T : Type) where
  cell : Cell T
  events : List (Event T)
  error : Option CellError
  invoked : Bool

/-- `orInsert(func)`: no-op if the slot holds a value; otherwise invokes
`func`; a promise result sets `pendingInsertion = true` and returns; an
immediate result is passed to `insert` (whose throw propagates). -/
def orInsert (c : Cell T) (func : Unit → ProducerResult T) : OrInsertResult T :=
  match c.inner with
  | some _ => ⟨c, [], none, false⟩
  | none =>
    match func () with
    | .promise _ => ⟨{ c with pendingInsertion := true }, [], none, true⟩
    | .immediate v =>
      let r := insert c (some v)
      ⟨r.cell, r.events, r.error, true⟩

/-- The `.then` continuation registered by `orInsert` on a promise result:
clears `pendingInsertion` and commits the resolved value through
`insert`. -/
def commitAsync (c : Cell T) (r : T) : InsertResult T :=
  insert { c with pendingInsertion := false } (some r)

/-- A sequence of `take()` calls, each registering a fresh waiter id when
the cell is empty; returns the final state and each call's immediate
result (`none` = the caller suspended). -/
def takeMany (c : Cell T) (ids : List Nat) : Cell T × List (Option T) :=
  match ids with
  | [] => (c, [])
  | i :: is =>
    let out := take c i
    let rec_ := takeMany out.1 is
    (rec_.1, out.2 :: rec_.2)

/-- One client-visible operation on the cell, used to describe arbitrary
interleavings between an `orInsert` producer's start and its commit. -/
inductive Op (T : Type) where
  | peekOp
  | loadOp (freshId : Nat)
  | takeOp (freshId : Nat)
  | subscribeOp (subs : List Nat)
  | insertOp (value : Option T)
  | orInsertOp (func : Unit → ProducerResult T)
  | commitOp (r : T)

/-- Whether the operation is the commit continuation of an `orInsert`
producer's promise. -/
def Op.isCommit : Op T → Bool
  | commitOp _ => true
  | _ => false

/-- The state reached after one operation; a thrown `PendingInsertionError`
leaves the state as it was. -/
def applyOp (c : Cell T) : Op T → Cell T
  | .peekOp => c
  | .loadOp i => (load c i).1
  | .takeOp i => (take c i).1
  | .subscribeOp subs => subscribe c subs
  | .insertOp v => (insert c v).cell
  | .orInsertOp f => (orInsert c f).cell
  | .commitOp r => (commitAsync c r).cell

/-- The state reached after a sequence of operations. -/
def applyOps (c : Cell T) (ops : List (Op T)) : Cell T :=
  ops.foldl applyOp c

/-! ### Helper lemmas shared by the claim theorems -/

/-- `insert` throws before touching any field: with the pending-insertion
flag set it returns the input state, no events and the error. -/
theorem insert_of_pending (c : Cell T) (v : Option T)
    (hp : c.pendingInsertion = true) :
    insert c v = ⟨c, [], some CellError.pendingInsertionError⟩ := by
  simp [insert, hp]

/-- With the pending-insertion flag clear, `insert (some v)` returns
normally, stores `v`, and leaves the flag, the priority and the
subscription list unchanged. -/
theorem insert_some_of_not_pending (c : Cell T) (v : T)
    (hp : c.pendingInsertion = false) :
    (insert c (some v)).error = none
    ∧ (insert c (some v)).cell.inner = some v
    ∧ (insert c (some v)).cell.pendingInsertion = false
    ∧ (insert c (some v)).cell.priority = c.priority
    ∧ (insert c (some v)).cell.subscriptions = c.subscriptions := by
  cases hpr : c.priority <;>
    cases ht : c.takes <;>
      simp [insert, hp, hpr, ht]

/-- Every operation except a commit preserves a set pending-insertion
flag. -/
theorem applyOp_pending (c : Cell T) (op : Op T)
    (hop : op.isCommit = false) (hp : c.pendingInsertion = true) :
    (applyOp c op).pendingInsertion = true := by
  cases op with
  | peekOp => simpa [applyOp] using hp
  | loadOp i =>
    cases hi : c.inner <;> simp [applyOp, load, hi, hp]
  | takeOp i =>
    cases hi : c.inner <;> simp [applyOp, take, hi, hp]
  | subscribeOp subs => simpa [applyOp, subscribe] using hp
  | insertOp v => simp [applyOp, insert_of_pending c v hp, hp]
  | orInsertOp f =>
    cases hi : c.inner with
    | some w => simpa [applyOp, orInsert, hi] using hp
    | none =>
      cases hf : f () with
      | promise pid => simp [applyOp, orInsert, hi, hf]
      | immediate v => simp [applyOp, orInsert, hi, hf, insert_of_pending c (some v) hp, hp]
  | commitOp r => simp [Op.isCommit] at hop

/-- A commit-free sequence of operations preserves a set pending-insertion
flag. -/
theorem applyOps_pending (c : Cell T) (ops : List (Op T))
    (hops : ∀ op ∈ ops, op.isCommit = false) (hp : c.pendingInsertion = true) :
    (applyOps c ops).pendingInsertion = true := by
  induction ops generalizing c with
  | nil => simpa [applyOps] using hp
  | cons op ops ih =>
    have h1 : (applyOp c op).pendingInsertion = true :=
      applyOp_pending c op (hops op (List.mem_cons_self op ops)) hp
    have := ih (applyOp c op) (fun o ho => hops o (List.mem_cons_of_mem op ho)) h1
    simpa [applyOps, List.foldl_cons] using this

/-- `takeMany` on an empty cell: every call suspends (`none`), and the
fresh ids are appended to the take queue in call order; no other field
changes. -/
theorem takeMany_empty (c : Cell T) (ids : List Nat) (hi : c.inner = none) :
    takeMany c ids = ({ c with takes := c.takes ++ ids }, List.replicate ids.length none) := by
  induction ids generalizing c with
  | nil => simp [takeMany]
  | cons i is ih =>
    have step : take c i = ({ c with takes := c.takes ++ [i] }, none) := by
      simp [take, hi]
    have hrest := ih { c with takes := c.takes ++ [i] } hi
    simp [takeMany, step, hrest, List.replicate]

/-! ### Claim theorems -/

/-- C1, counterexample.  Cell of `Nat`, default priority, one queued take
waiter (id 0); `insert 5` resolves that waiter, yet `peek` still returns
`5` and a subsequent `take()` call receives the same value `5` again —
contradicting the claim that the value is cleared from the slot as part of
the resolution and can never be received again. -/
theorem C1_cex_insert_resolving_take_leaves_value :
    (insert ((take (mkCell (T := Nat) none ResolvePriority.takes) 0).1) (some 5)).events
        = [Event.resolveTake 0 5]
    ∧ peek (insert ((take (mkCell (T := Nat) none ResolvePriority.takes) 0).1)
          (some 5)).cell = some 5
    ∧ (take (insert ((take (mkCell (T := Nat) none ResolvePriority.takes) 0).1)
          (some 5)).cell 1).2 = some 5 := by
  decide

/-- C1, amended.  When `insert v` resolves a queued take waiter, exactly
one take waiter (the oldest) is resolved with `v` by that insertion, but
the value is not cleared from the slot: `peek` returns `v` after the
insert, and a subsequent `take()` call receives the same value `v`. -/
theorem C1_insert_resolves_one_take_keeps_value (c : Cell T) (v : T)
    (t : Nat) (rest : List Nat) (fresh : Nat)
    (hp : c.pendingInsertion = false) (ht : c.takes = t :: rest) :
    (insert c (some v)).error = none
    ∧ (insert c (some v)).cell.takes = rest
    ∧ Event.resolveTake t v ∈ (insert c (some v)).events
    ∧ (∀ w u, Event.resolveTake w u ∈ (insert c (some v)).events → w = t ∧ u = v)
    ∧ peek (insert c (some v)).cell = some v
    ∧ (take (insert c (some v)).cell fresh).2 = some v := by
  cases hpr : c.priority <;>
    simp [insert, peek, take, hp, ht, hpr]

/-- C1, witness for the amended theorem at a concrete cell. -/
theorem C1_witness :
    peek (insert ((take (mkCell (T := Nat) none ResolvePriority.takes) 0).1)
        (some 7)).cell = some 7 :=
  (C1_insert_resolves_one_take_keeps_value
      ((take (mkCell (T := Nat) none ResolvePriority.takes) 0).1)
      7 0 [] 1 rfl rfl).2.2.2.2.1

/-- C2.  Under priority `Takes` (the default), `insert v` with a take
waiter queued resolves exactly the oldest take waiter with `v` and
resolves no load waiter (the load queue is untouched); with no take waiter
queued, it resolves all load waiters with `v` and empties that queue. -/
theorem C2_insert_favorTakes (c : Cell T) (v : T)
    (hpr : c.priority = ResolvePriority.takes) (hp : c.pendingInsertion = false) :
    (∀ t rest, c.takes = t :: rest →
      (insert c (some v)).events
          = c.subscriptions.map (fun s => Event.notify s (some v) c.inner)
            ++ [Event.resolveTake t v]
      ∧ (insert c (some v)).cell.loads = c.loads
      ∧ (insert c (some v)).cell.takes = rest)
    ∧ (c.takes = [] →
      (insert c (some v)).events
          = c.subscriptions.map (fun s => Event.notify s (some v) c.inner)
            ++ c.loads.map (fun w => Event.resolveLoad w v)
      ∧ (insert c (some v)).cell.loads = []) := by
  constructor
  · intro t rest ht
    simp [insert, hp, hpr, ht]
  · intro ht
    simp [insert, hp, hpr, ht]

/-- C2, witness: one pending take (id 0), one pending load (id 1), default
priority; `insert 3` resolves only the take waiter and leaves the load
queue as it was. -/
theorem C2_witness :
    (insert ((load ((take (mkCell (T := Nat) none ResolvePriority.takes) 0).1) 1).1)
        (some 3)).events = [Event.resolveTake 0 3]
    ∧ (insert ((load ((take (mkCell (T := Nat) none ResolvePriority.takes) 0).1) 1).1)
        (some 3)).cell.loads = [1] := by
  have h := (C2_insert_favorTakes
      ((load ((take (mkCell (T := Nat) none ResolvePriority.takes) 0).1) 1).1)
      3 rfl rfl).1 0 [] rfl
  exact ⟨h.1, h.2.1⟩

/-- C3.  Under priority `Loads`, on an empty cell, `insert v` resolves all
queued load waiters with `v` (emptying that queue) and then also resolves
the oldest queued take waiter, if any, with the same `v`. -/
theorem C3_insert_favorLoads (c : Cell T) (v : T)
    (hpr : c.priority = ResolvePriority.loads) (hp : c.pendingInsertion = false)
    (hi : c.inner = none) :
    (insert c (some v)).events
        = c.subscriptions.map (fun s => Event.notify s (some v) none)
          ++ c.loads.map (fun w => Event.resolveLoad w v)
          ++ (match c.takes with
              | [] => []
              | t :: _ => [Event.resolveTake t v])
    ∧ (insert c (some v)).cell.loads = []
    ∧ (insert c (some v)).cell.takes = c.takes.tail := by
  cases ht : c.takes <;>
    simp [insert, hp, hpr, hi, ht]

/-- C3, witness: priority `Loads`, one pending take (id 0), one pending
load (id 1); `insert 3` resolves the load first and then the take with the
same value. -/
theorem C3_witness :
    (insert ((load ((take (mkCell (T := Nat) none ResolvePriority.loads) 0).1) 1).1)
        (some 3)).events = [Event.resolveLoad 1 3, Event.resolveTake 0 3] :=
  (C3_insert_favorLoads
      ((load ((take (mkCell (T := Nat) none ResolvePriority.loads) 0).1) 1).1)
      3 rfl rfl rfl).1

/-- C4.  `N ≥ 1` take calls on an empty cell all suspend; one `insert v`
then resolves exactly the oldest waiter (id 0) with `v` — the event list
is precisely `[resolveTake 0 v]` — and the remaining `N − 1` waiters stay
queued. -/
theorem C4_one_take_per_insert (N : Nat) (v : T) (pr : ResolvePriority)
    (hN : 1 ≤ N) :
    (takeMany (mkCell (T := T) none pr) (List.range N)).2 = List.replicate N none
    ∧ (insert (takeMany (mkCell (T := T) none pr) (List.range N)).1 (some v)).events
        = [Event.resolveTake 0 v]
    ∧ (insert (takeMany (mkCell (T := T) none pr) (List.range N)).1 (some v)).cell.takes
        = (List.range N).tail
    ∧ ((insert (takeMany (mkCell (T := T) none pr) (List.range N)).1
          (some v)).cell.takes).length = N - 1 := by
  obtain ⟨m, rfl⟩ : ∃ m, N = m + 1 := ⟨N - 1, (Nat.succ_pred_eq_of_pos hN).symm⟩
  have hq := takeMany_empty (mkCell (T := T) none pr) (List.range (m + 1)) rfl
  have hrange : List.range (m + 1) = 0 :: List.map Nat.succ (List.range m) :=
    List.range_succ_eq_map m
  have hcell : (takeMany (mkCell (T := T) none pr) (List.range (m + 1))).1
      = { inner := none, pendingInsertion := false, priority := pr,
          takes := 0 :: List.map Nat.succ (List.range m), loads := [],
          subscriptions := [] } := by
    rw [hq]
    simp [mkCell, hrange]
  refine ⟨by rw [hq]; simp, ?_, ?_, ?_⟩ <;>
    rw [hcell] <;> cases pr <;> simp [insert, hrange]

/-- C4, witness at `N = 2`, `v = 9`: exactly one of the two pending takes
resolves. -/
theorem C4_witness :
    1 ≤ 2
    ∧ (insert (takeMany (mkCell (T := Nat) none ResolvePriority.takes)
          (List.range 2)).1 (some 9)).events = [Event.resolveTake 0 9] :=
  ⟨by decide, (C4_one_take_per_insert 2 9 ResolvePriority.takes (by decide)).2.1⟩

/-- C5.  `orInsert` on an empty, non-pending cell whose producer returns
an in-flight promise: the pending-insertion flag is set when `orInsert`
returns (and no error is raised); along any commit-free sequence of
further operations, `insert x` fails with `PendingInsertionError` and
changes nothing; the commit continuation then succeeds, clears the flag
and stores the producer's result `r`; and a subsequent `insert y` succeeds
normally. -/
theorem C5_orInsert_async_guard (c d : Cell T) (pid : Nat) (x r y : T)
    (hi : c.inner = none) (hp : c.pendingInsertion = false)
    (hd : d = (orInsert c (fun _ => ProducerResult.promise pid)).cell) :
    d.pendingInsertion = true
    ∧ (orInsert c (fun _ => ProducerResult.promise pid)).error = none
    ∧ d.inner = none
    ∧ (∀ ops : List (Op T), (∀ op ∈ ops, op.isCommit = false) →
        insert (applyOps d ops) (some x)
          = ⟨applyOps d ops, [], some CellError.pendingInsertionError⟩)
    ∧ (commitAsync d r).error = none
    ∧ (commitAsync d r).cell.inner = some r
    ∧ (commitAsync d r).cell.pendingInsertion = false
    ∧ (insert (commitAsync d r).cell (some y)).error = none
    ∧ (insert (commitAsync d r).cell (some y)).cell.inner = some y := by
  have hd' : d = { c with pendingInsertion := true } := by
    rw [hd]; simp [orInsert, hi]
  have hdp : d.pendingInsertion = true := by rw [hd']
  have hcommit := insert_some_of_not_pending { d with pendingInsertion := false } r rfl
  have hafter : (commitAsync d r).cell.pendingInsertion = false := hcommit.2.2.1
  have hlater := insert_some_of_not_pending (commitAsync d r).cell y hafter
  refine ⟨hdp, by simp [orInsert, hi], by rw [hd']; simpa using hi, ?_, hcommit.1, hcommit.2.1,
    hafter, hlater.1, hlater.2.1⟩
  intro ops hops
  exact insert_of_pending _ _ (applyOps_pending d ops hops hdp)

/-- C5, witness: on a fresh `Cell Nat`, after the producer's promise is
registered, an `insert 1` via the empty interleaving fails and changes
nothing, and committing `2` stores `2`. -/
theorem C5_witness :
    insert (applyOps ((orInsert (mkCell (T := Nat) none ResolvePriority.takes)
          (fun _ => ProducerResult.promise 0)).cell) []) (some 1)
        = ⟨applyOps ((orInsert (mkCell (T := Nat) none ResolvePriority.takes)
            (fun _ => ProducerResult.promise 0)).cell) [], [],
            some CellError.pendingInsertionError⟩
    ∧ (commitAsync ((orInsert (mkCell (T := Nat) none ResolvePriority.takes)
          (fun _ => ProducerResult.promise 0)).cell) 2).cell.inner = some 2 :=
  ⟨(C5_orInsert_async_guard (mkCell none ResolvePriority.takes)
        ((orInsert (mkCell (T := Nat) none ResolvePriority.takes)
          (fun _ => ProducerResult.promise 0)).cell) 0 1 2 3 rfl rfl rfl).2.2.2.1
      [] (by simp),
    (C5_orInsert_async_guard (mkCell none ResolvePriority.takes)
        ((orInsert (mkCell (T := Nat) none ResolvePriority.takes)
          (fun _ => ProducerResult.promise 0)).cell) 0 1 2 3 rfl rfl rfl).2.2.2.2.2.1⟩

/-- C6.  `insert` throws `PendingInsertionError` exactly when the
pending-insertion flag is set at the call, and a throwing call applies no
state: the returned cell is the input cell (slot, both queues and the
subscription list unchanged) and no subscriber or resolver is invoked.
`orInsert` can only propagate such an error when the flag is set; `peek`,
`load`, `take` and `subscribe` are embedded as total functions with no
error outcome, as in the source. -/
theorem C6_insert_error_iff_pending (c : Cell T) (v : Option T)
    (f : Unit → ProducerResult T) :
    ((insert c v).error = some CellError.pendingInsertionError
        ↔ c.pendingInsertion = true)
    ∧ (c.pendingInsertion = true →
        (insert c v).cell = c ∧ (insert c v).events = [])
    ∧ ((orInsert c f).error ≠ none → c.pendingInsertion = true) := by
  cases hp : c.pendingInsertion with
  | true =>
    refine ⟨by simp [insert_of_pending c v hp], ?_, fun _ => rfl⟩
    intro _
    simp [insert_of_pending c v hp]
  | false =>
    have herr : (insert c v).error = none := by
      cases v with
      | none => simp [insert, hp]
      | some w => exact (insert_some_of_not_pending c w hp).1
    refine ⟨by simp [herr], ?_, ?_⟩
    · intro h
      exact absurd h (by simp [hp])
    · intro h
      cases hi : c.inner with
      | some w => simp [orInsert, hi] at h
      | none =>
        cases hf : f () with
        | promise pid => simp [orInsert, hi, hf] at h
        | immediate w =>
          have : (orInsert c f).error = none := by
            simp [orInsert, hi, hf, (insert_some_of_not_pending c w hp).1]
          exact absurd this h

/-- C6, witness: on a cell whose pending-insertion flag is set, `insert 4`
leaves the state untouched and emits no event. -/
theorem C6_witness :
    (insert (⟨none, true, ResolvePriority.takes, [], [], []⟩ : Cell Nat)
        (some 4)).cell = ⟨none, true, ResolvePriority.takes, [], [], []⟩
    ∧ (insert (⟨none, true, ResolvePriority.takes, [], [], []⟩ : Cell Nat)
        (some 4)).events = [] :=
  (C6_insert_error_iff_pending (⟨none, true, ResolvePriority.takes, [], [], []⟩ : Cell Nat)
      (some 4) (fun _ => ProducerResult.promise 0)).2.1 rfl

/-- Whether the event is a subscriber notification. -/
def Event.isNotify : Event T → Bool
  | notify _ _ _ => true
  | _ => false

/-- C7.  A non-throwing `insert` (including an empty insert that clears
the cell) notifies each registered subscriber exactly once, in
registration order, with the new value and the previous slot contents, and
every such notification precedes every waiter resolution of that call; the
slot afterwards holds the inserted value. -/
theorem C7_insert_notifies_subscribers_first (c : Cell T) (v : Option T)
    (hp : c.pendingInsertion = false) :
    ∃ resolutions : List (Event T),
      (insert c v).events
          = c.subscriptions.map (fun s => Event.notify s v c.inner) ++ resolutions
      ∧ (∀ e ∈ resolutions, Event.isNotify e = false)
      ∧ (insert c v).cell.inner = v := by
  cases v with
  | none =>
    exact ⟨[], by simp [insert, hp], by simp, by simp [insert, hp]⟩
  | some w =>
    cases hpr : c.priority with
    | loads =>
      cases ht : c.takes with
      | cons t rest =>
        refine ⟨c.loads.map (fun l => Event.resolveLoad l w) ++ [Event.resolveTake t w],
          by simp [insert, hp, hpr, ht], ?_, by simp [insert, hp, hpr, ht]⟩
        intro e he
        rcases List.mem_append.mp he with hl | hr
        · obtain ⟨l, _, rfl⟩ := List.mem_map.mp hl
          rfl
        · rw [List.mem_singleton.mp hr]
          rfl
      | nil =>
        refine ⟨c.loads.map (fun l => Event.resolveLoad l w),
          by simp [insert, hp, hpr, ht], ?_, by simp [insert, hp, hpr, ht]⟩
        intro e he
        obtain ⟨l, _, rfl⟩ := List.mem_map.mp he
        rfl
    | takes =>
      cases ht : c.takes with
      | cons t rest =>
        refine ⟨[Event.resolveTake t w],
          by simp [insert, hp, hpr, ht], ?_, by simp [insert, hp, hpr, ht]⟩
        intro e he
        rw [List.mem_singleton.mp he]
        rfl
      | nil =>
        refine ⟨c.loads.map (fun l => Event.resolveLoad l w),
          by simp [insert, hp, hpr, ht], ?_, by simp [insert, hp, hpr, ht]⟩
        intro e he
        obtain ⟨l, _, rfl⟩ := List.mem_map.mp he
        rfl

/-- C7, witness: a cell with two subscribers (ids 8 and 9, registered in
that order) holding `1`; `insert 6` notifies both, in order, with
`(some 6, some 1)`, before the single resolution. -/
theorem C7_witness :
    ∃ resolutions : List (Event Nat),
      (insert (⟨some 1, false, ResolvePriority.takes, [], [], [8, 9]⟩ : Cell Nat)
          (some 6)).events
        = [8, 9].map (fun s => Event.notify s (some 6) (some 1)) ++ resolutions
      ∧ (∀ e ∈ resolutions, Event.isNotify e = false)
      ∧ (insert (⟨some 1, false, ResolvePriority.takes, [], [], [8, 9]⟩ : Cell Nat)
          (some 6)).cell.inner = some 6 :=
  C7_insert_notifies_subscribers_first
    (⟨some 1, false, ResolvePriority.takes, [], [], [8, 9]⟩ : Cell Nat) (some 6) rfl

/-- C8.  `insert` tests `value === undefined`, not truthiness: every
present value `v` — including falsy values such as `0` or `false` — is
stored (`peek` then returns `v`) and the waiter-resolution protocol runs
(a queued take waiter is popped and resolved); only an absent argument
clears the cell, and that path touches neither waiter queue and emits only
the subscriber notifications. -/
theorem C8_insert_present_vs_absent (c : Cell T) (v : T)
    (hp : c.pendingInsertion = false) :
    ((insert c (some v)).error = none
      ∧ peek (insert c (some v)).cell = some v
      ∧ (∀ t rest, c.takes = t :: rest →
          (insert c (some v)).cell.takes = rest
          ∧ Event.resolveTake t v ∈ (insert c (some v)).events))
    ∧ ((insert c none).cell.inner = none
      ∧ (insert c none).cell.takes = c.takes
      ∧ (insert c none).cell.loads = c.loads
      ∧ (insert c none).events
          = c.subscriptions.map (fun s => Event.notify s none c.inner)) := by
  refine ⟨⟨(insert_some_of_not_pending c v hp).1,
      (insert_some_of_not_pending c v hp).2.1, ?_⟩,
    by simp [insert, hp], by simp [insert, hp], by simp [insert, hp],
    by simp [insert, hp]⟩
  intro t rest ht
  cases hpr : c.priority <;> simp [insert, hp, hpr, ht]

/-- C8, witness at the falsy value `0`: with a queued take waiter,
`insert 0` stores `0` and resolves that waiter with `0`. -/
theorem C8_witness :
    peek (insert ((take (mkCell (T := Nat) none ResolvePriority.takes) 0).1)
        (some 0)).cell = some 0
    ∧ Event.resolveTake 0 0
        ∈ (insert ((take (mkCell (T := Nat) none ResolvePriority.takes) 0).1)
            (some 0)).events :=
  ⟨(C8_insert_present_vs_absent
      ((take (mkCell (T := Nat) none ResolvePriority.takes) 0).1) 0 rfl).1.2.1,
    ((C8_insert_present_vs_absent
      ((take (mkCell (T := Nat) none ResolvePriority.takes) 0).1) 0 rfl).1.2.2
        0 [] rfl).2⟩

/-- C9.  `orInsert` never reads the pending-insertion flag: on an empty
cell with the flag set it still invokes the producer, and an immediate
producer result makes the internal `insert` throw `PendingInsertionError`,
which propagates out of `orInsert` with the state unchanged. -/
theorem C9_orInsert_ignores_pending_flag (c : Cell T) (v : T)
    (hi : c.inner = none) (hp : c.pendingInsertion = true) :
    (orInsert c (fun _ => ProducerResult.immediate v)).invoked = true
    ∧ (orInsert c (fun _ => ProducerResult.immediate v)).error
        = some CellError.pendingInsertionError
    ∧ (orInsert c (fun _ => ProducerResult.immediate v)).cell = c := by
  simp [orInsert, hi, insert_of_pending c (some v) hp]

/-- C9, witness: a pending empty cell; `orInsert` with an immediate
producer invokes it and propagates the error. -/
theorem C9_witness :
    (orInsert (⟨none, true, ResolvePriority.takes, [], [], []⟩ : Cell Nat)
        (fun _ => ProducerResult.immediate 5)).invoked = true
    ∧ (orInsert (⟨none, true, ResolvePriority.takes, [], [], []⟩ : Cell Nat)
        (fun _ => ProducerResult.immediate 5)).error
      = some CellError.pendingInsertionError :=
  ⟨(C9_orInsert_ignores_pending_flag
      (⟨none, true, ResolvePriority.takes, [], [], []⟩ : Cell Nat) 5 rfl rfl).1,
    (C9_orInsert_ignores_pending_flag
      (⟨none, true, ResolvePriority.takes, [], [], []⟩ : Cell Nat) 5 rfl rfl).2.1⟩

/-- C10.  The commit continuation of an `orInsert` promise unconditionally
clears the pending-insertion flag and inserts the resolved value `r`:
whatever the cell holds at that moment, the commit raises no error and
leaves the slot holding `r` (the late result overwrites any present value
and is never dropped). -/
theorem C10_commitAsync_always_commits (c : Cell T) (r : T) :
    (commitAsync c r).error = none
    ∧ (commitAsync c r).cell.inner = some r
    ∧ (commitAsync c r).cell.pendingInsertion = false := by
  have h := insert_some_of_not_pending { c with pendingInsertion := false } r rfl
  exact ⟨h.1, h.2.1, h.2.2.1⟩

end AsyncCell
